import Mathlib

/-!
Verification development for the UnoPass vault core (server side).

The TypeScript sources are shallowly embedded as executable Lean
definitions.  Node/browser primitives that live outside the repository
(crypto.scrypt, AES-256-GCM, HMAC-SHA256, JSON.stringify/parse, the WHATWG
URL parser, Date.now, uuid) are modelled as ideal executable functions:
randomness and clocks become explicit parameters, the KDF and both MACs
become injective (collision-free) encodings, and JSON serialization of the
vault payload becomes a canonical length-prefixed byte encoding with a
verified parser.  Everything that is code of the repository itself
(vaultCrypto.ts, vaultService.ts, vaultStorage.ts, rateLimiter.ts,
utils/domain.ts) is translated statement by statement.
-/

set_option linter.unusedVariables false

deriving instance DecidableEq for Except

namespace UnoPass

/-- Byte strings (Node `Buffer`s, and JavaScript strings viewed as their
sequences of character codes) are modelled as lists of naturals. -/
abbrev Bytes := List Nat

/-- Length-prefixed encoding of a byte string, used to build canonical,
injectively decodable messages for the ideal MAC models. -/
def encList (l : Bytes) : Bytes := l.length :: l

/-- Decoder for `encList`: read a length, then that many bytes; return the
decoded block and the remaining input. -/
def decList : Bytes → Option (Bytes × Bytes)
  | [] => none
  | n :: r => if n ≤ r.length then some (r.take n, r.drop n) else none

/-- Canonical byte encoding of a JavaScript string: its length followed by
its character codes. -/
def encStr (s : String) : Bytes := s.length :: s.data.map Char.toNat

/-- Decoder for `encStr`. -/
def decStr : Bytes → Option (String × Bytes)
  | [] => none
  | n :: r =>
    if n ≤ r.length then some (String.mk ((r.take n).map Char.ofNat), r.drop n) else none

/-- JavaScript string equality `a === b` as engines implement it: a length
check first, then an element-by-element scan that exits at the first
mismatching position.  `jsStrEqScan` is the scan, `jsStrEq` the full
comparison. -/
def jsStrEqScan : Bytes → Bytes → Bool
  | [], [] => true
  | a :: as, b :: bs => if a = b then jsStrEqScan as bs else false
  | _, _ => false

def jsStrEq (a b : Bytes) : Bool := if a.length = b.length then jsStrEqScan a b else false

/-- Number of element comparisons the scan of `jsStrEq` performs: it stops
at the first mismatch, so the count depends on the contents, not only on
the lengths. -/
def jsStrEqScanCost : Bytes → Bytes → Nat
  | a :: as, b :: bs => if a = b then jsStrEqScanCost as bs + 1 else 1
  | _, _ => 0

/-- Total comparison count of `jsStrEq` (zero when the length check already
decides the comparison). -/
def jsStrEqCost (a b : Bytes) : Nat :=
  if a.length = b.length then jsStrEqScanCost a b else 0

/-- JavaScript `String.prototype.toLowerCase`, restricted to ASCII case
mapping, which is all the sources rely on. -/
def jsToLower (s : String) : String := String.mk (s.data.map Char.toLower)

/-- Scan for a contiguous occurrence of `pat` inside a character list. -/
def listContainsSeg (pat : List Char) : List Char → Bool
  | [] => List.isPrefixOf pat []
  | c :: cs => List.isPrefixOf pat (c :: cs) || listContainsSeg pat cs

/-- JavaScript `String.prototype.includes`. -/
def jsIncludes (s sub : String) : Bool := listContainsSeg sub.data s.data

/-- JavaScript `String.prototype.endsWith`. -/
def jsEndsWith (s pat : String) : Bool := List.isSuffixOf pat.data s.data

/-- JavaScript `String.prototype.startsWith`. -/
def jsStartsWith (s pat : String) : Bool := List.isPrefixOf pat.data s.data

/-- JavaScript `String.prototype.slice(n)` / dropping the first `n`
characters. -/
def jsDrop (s : String) (n : Nat) : String := String.mk (s.data.drop n)

/-- JavaScript `String.prototype.trim`: whitespace removed from both
ends. -/
def jsTrim (s : String) : String :=
  String.mk (((s.data.dropWhile Char.isWhitespace).reverse.dropWhile Char.isWhitespace).reverse)

/-- Key-derivation parameters stored in the vault file
(`KdfParams` in `types.ts`). -/
structure KdfParams where
  salt : String
  N : Nat
  r : Nat
  p : Nat
  keyLength : Nat

deriving DecidableEq

/-- The AES-256-GCM payload stored in the vault file (`CipherPayload` in
`types.ts`); the base64 strings of the source are modelled as the byte
strings they encode. -/
structure CipherPayload where
  iv : Bytes
  data : Bytes
  authTag : Bytes

deriving DecidableEq

/-- The on-disk vault record (`VaultFile` in `types.ts`). -/
structure VaultFile where
  version : Nat
  kdf : KdfParams
  cipher : CipherPayload
  hmac : Option Bytes

deriving DecidableEq

/-- A stored credential (`VaultEntry` in `types.ts`). -/
structure VaultEntry where
  id : String
  site : String
  domain : String
  username : String
  password : String
  notes : Option String
  createdAt : String
  updatedAt : String

deriving DecidableEq

/-- The decrypted vault contents (`VaultData` in `types.ts`). -/
structure VaultData where
  entries : List VaultEntry

deriving DecidableEq

/-- Encoding of an optional string field. -/
def encOptStr : Option String → Bytes
  | none => [0]
  | some s => 1 :: encStr s

def decOptStr : Bytes → Option (Option String × Bytes)
  | 0 :: r => some (none, r)
  | 1 :: r => (decStr r).map (fun p => (some p.1, p.2))
  | _ => none

/-- Canonical byte encoding of one vault entry, field by field in
declaration order. -/
def encEntry (e : VaultEntry) : Bytes :=
  encStr e.id ++ encStr e.site ++ encStr e.domain ++ encStr e.username ++
    encStr e.password ++ encOptStr e.notes ++ encStr e.createdAt ++ encStr e.updatedAt

def decEntry (b : Bytes) : Option (VaultEntry × Bytes) := do
  let (i, b) ← decStr b
  let (site, b) ← decStr b
  let (domain, b) ← decStr b
  let (username, b) ← decStr b
  let (password, b) ← decStr b
  let (notes, b) ← decOptStr b
  let (createdAt, b) ← decStr b
  let (updatedAt, b) ← decStr b
  some (⟨i, site, domain, username, password, notes, createdAt, updatedAt⟩, b)

def encEntries : List VaultEntry → Bytes
  | [] => []
  | e :: es => encEntry e ++ encEntries es

def decEntries : Nat → Bytes → Option (List VaultEntry × Bytes)
  | 0, b => some ([], b)
  | n + 1, b => do
    let (e, b) ← decEntry b
    let (es, b) ← decEntries n b
    some (e :: es, b)

/-- This models `JSON.stringify` applied to a `VaultData` value: `JSON` is a
Node primitive, so the serialized form is modelled as a canonical,
order-stable byte encoding. -/
def serializeVault (d : VaultData) : Bytes := d.entries.length :: encEntries d.entries

/-- This models `JSON.parse` of a serialized vault (`parse` of exactly the
encodings `serializeVault` produces; anything else fails). -/
def parseVault (b : Bytes) : Option VaultData :=
  match b with
  | n :: r =>
    match decEntries n r with
    | some (es, []) => some ⟨es⟩
    | _ => none
  | [] => none

/-- This models `crypto.scrypt` (a Node primitive) as an ideal,
collision-free KDF: the derived key is an injective encoding of the
password and the salt.  The cost parameters `N`, `r`, `p` and `keyLength`
do not influence the ideal key. -/
def deriveKey (masterPassword : String) (params : KdfParams) : Bytes :=
  encStr masterPassword ++ encStr params.salt

/-- `generateKdfParams` from `vaultCrypto.ts`; the fresh random salt
produced by `crypto.randomBytes` becomes an explicit parameter. -/
def generateKdfParams (salt : String) : KdfParams :=
  { salt := salt, N := 2 ^ 16, r := 8, p := 1, keyLength := 32 }

/-- The counter-mode keystream of the modelled AES-256-GCM cipher: an
explicit additive stream determined by the key and the iv. -/
def keystream (key iv : Bytes) (n : Nat) : Bytes :=
  (List.range n).map (fun i => key.sum + iv.sum + i)

/-- Stream encryption of the plaintext bytes (model of the AES-CTR body of
AES-256-GCM). -/
def maskBytes (key iv pt : Bytes) : Bytes :=
  List.zipWith (fun b k => b + k) pt (keystream key iv pt.length)

/-- Stream decryption, inverting `maskBytes`. -/
def unmaskBytes (key iv ct : Bytes) : Bytes :=
  List.zipWith (fun c k => c - k) ct (keystream key iv ct.length)

/-- The GCM authentication tag, modelled as a perfect MAC: an injective
encoding of key, iv and ciphertext.  The real tag is a 16-byte value that
is unforgeable and collision-free only computationally; the model makes
that ideal. -/
def gcmTag (key iv ct : Bytes) : Bytes := encList key ++ encList iv ++ encList ct

/-- `encryptPayload` from `vaultCrypto.ts`; the fresh random iv becomes an
explicit parameter. -/
def encryptPayload (data : Bytes) (key : Bytes) (iv : Bytes) : CipherPayload :=
  let ct := maskBytes key iv data
  { iv := iv, data := ct, authTag := gcmTag key iv ct }

/-- Error kinds of the embedded crypto layer.  `authFailure` is the
AuthenticationError thrown by `decipher.final()` (wrong key or corrupted
ciphertext at the GCM layer); the two `integrity*` kinds are the explicit
IntegrityErrors of `decryptVaultWithKey`; `parseFailure` a `JSON.parse`
failure. -/
inductive VaultError where
  | integrityMissing
  | integrityTampered
  | authFailure
  | parseFailure

deriving DecidableEq

/-- `decryptPayload` from `vaultCrypto.ts`: GCM verifies the tag and then
opens; a bad tag surfaces as `authFailure`. -/
def decryptPayload (payload : CipherPayload) (key : Bytes) : Except VaultError Bytes :=
  if payload.authTag = gcmTag key payload.iv payload.data then
    .ok (unmaskBytes key payload.iv payload.data)
  else .error .authFailure

/-- `computeHMAC` from `vaultCrypto.ts`: HMAC-SHA256 keyed by the derived
key over the canonical JSON of `{version, kdf, cipher}`.  HMAC-SHA256 is a
Node primitive; it is modelled as a perfect MAC whose digest is an
injective encoding of the key and every covered field. -/
def computeHMAC (version : Nat) (kdf : KdfParams) (cipher : CipherPayload) (key : Bytes) : Bytes :=
  encList key ++ version :: (encStr kdf.salt ++ kdf.N :: kdf.r :: kdf.p :: kdf.keyLength ::
    (encList cipher.iv ++ encList cipher.data ++ encList cipher.authTag))

/-- `encryptVaultWithKey` from `vaultCrypto.ts`: seal the serialized data,
stamp version 2, attach the HMAC computed over the tagless record. -/
def encryptVaultWithKey (data : VaultData) (key : Bytes) (kdf : KdfParams) (iv : Bytes) :
    VaultFile :=
  let payload := encryptPayload (serializeVault data) key iv
  { version := 2, kdf := kdf, cipher := payload,
    hmac := some (computeHMAC 2 kdf payload key) }

/-- `encryptVault` from `vaultCrypto.ts` (the spec's `encryptNew`): fresh
KDF parameters, derive the key, seal.  The random salt and iv are explicit
parameters. -/
def encryptVault (data : VaultData) (masterPassword : String) (salt : String) (iv : Bytes) :
    VaultFile × Bytes :=
  let kdf := generateKdfParams salt
  let key := deriveKey masterPassword kdf
  (encryptVaultWithKey data key kdf iv, key)

/-- The version-gated integrity check at the top of `decryptVaultWithKey`:
for version ≥ 2 the HMAC is mandatory and is compared against the
recomputed digest with the JavaScript `!==` string comparison. -/
def checkIntegrity (vault : VaultFile) (key : Bytes) : Except VaultError Unit :=
  if 2 ≤ vault.version then
    match vault.hmac with
    | none => .error .integrityMissing
    | some stored =>
      if jsStrEq stored (computeHMAC vault.version vault.kdf vault.cipher key) then .ok ()
      else .error .integrityTampered
  else .ok ()

/-- `decryptVaultWithKey` from `vaultCrypto.ts`: integrity check first (for
version ≥ 2), then open the cipher, then deserialize. -/
def decryptVaultWithKey (vault : VaultFile) (key : Bytes) : Except VaultError VaultData :=
  match checkIntegrity vault key with
  | .error e => .error e
  | .ok _ =>
    match decryptPayload vault.cipher key with
    | .error e => .error e
    | .ok plaintext =>
      match parseVault plaintext with
      | some d => .ok d
      | none => .error .parseFailure

/-- `decryptVault` from `vaultCrypto.ts`: derive the key from the file's
stored KDF parameters, then decrypt with it. -/
def decryptVault (vault : VaultFile) (masterPassword : String) :
    Except VaultError (VaultData × Bytes × KdfParams) :=
  let key := deriveKey masterPassword vault.kdf
  match decryptVaultWithKey vault key with
  | .error e => .error e
  | .ok d => .ok (d, key, vault.kdf)

/-- Events of the instrumented decryption: the integrity verification
succeeding, the attempt to open the cipher, and the attempt to deserialize
the plaintext. -/
inductive DecryptEvent where
  | verified
  | openedCipher
  | deserialized

deriving DecidableEq

/-- `decryptVaultWithKey` instrumented with an event trace recording the
order of its phases, used to state that the cipher is only ever opened
after the integrity verification succeeded. -/
def decryptTraceWithKey (vault : VaultFile) (key : Bytes) :
    Except VaultError VaultData × List DecryptEvent :=
  match checkIntegrity vault key with
  | .error e => (.error e, [])
  | .ok _ =>
    let pre : List DecryptEvent := if 2 ≤ vault.version then [.verified] else []
    match decryptPayload vault.cipher key with
    | .error e => (.error e, pre ++ [.openedCipher])
    | .ok plaintext =>
      match parseVault plaintext with
      | some d => (.ok d, pre ++ [.openedCipher, .deserialized])
      | none => (.error .parseFailure, pre ++ [.openedCipher, .deserialized])

/-- Number of character comparisons the `!==` integrity comparison inside
`decryptVaultWithKey` performs on a given file and key. -/
def integrityCmpCost (vault : VaultFile) (key : Bytes) : Nat :=
  if 2 ≤ vault.version then
    match vault.hmac with
    | none => 0
    | some stored => jsStrEqCost stored (computeHMAC vault.version vault.kdf vault.cipher key)
  else 0

/-- Scanner locating the first `://` of a formatted URL, returning the
scheme part before it and the remainder after it. -/
def findSchemeSplit : List Char → Option (List Char × List Char)
  | [] => none
  | ':' :: '/' :: '/' :: rest => some ([], rest)
  | c :: cs => (findSchemeSplit cs).map (fun p => (c :: p.1, p.2))

/-- This models the WHATWG `new URL(formatted).hostname` used by
`normalizeDomain` (a Node primitive): the hostname is the part of the text
after the first `://` and before the first `/`, `?`, `#` or `:`, lowercased
by the parser itself (WHATWG hostnames are case-normalized); the
constructor throws — modelled as `none` — when the scheme or the hostname
is empty or the hostname carries a space or `@`. -/
def urlHostname (formatted : String) : Option String :=
  match findSchemeSplit formatted.data with
  | none => none
  | some (scheme, rest) =>
    let host := rest.takeWhile (fun c => !(c = '/' || c = '?' || c = '#' || c = ':'))
    if scheme.isEmpty || host.isEmpty || host.contains ' ' || host.contains '@' then none
    else some (String.mk (host.map Char.toLower))

/-- The `.replace(/^www\., '')` step of `normalizeDomain`: one leading
`www.` removed. -/
def stripWww (host : String) : String :=
  if jsStartsWith host "www." then jsDrop host 4 else host

/-- `normalizeDomain` from `utils/domain.ts`. -/
def normalizeDomain (input : String) : String :=
  let formatted := if jsIncludes input "://" then input else "https://" ++ input
  match urlHostname formatted with
  | some host => jsToLower (stripWww host)
  | none => jsToLower (jsTrim input)

/-- `domainMatches` from `utils/domain.ts`. -/
def domainMatches (entryDomain targetDomain : String) : Bool :=
  let cleanEntry := normalizeDomain entryDomain
  let cleanTarget := normalizeDomain targetDomain
  (cleanTarget == cleanEntry) || jsEndsWith cleanTarget ("." ++ cleanEntry)

/-- One record of the rate limiter's sliding-window state
(`RateLimitEntry` in `rateLimiter.ts`). -/
structure RateLimitEntry where
  count : Nat
  resetAt : Nat
  blockedUntil : Option Nat

deriving DecidableEq

/-- The `RateLimiter` of `rateLimiter.ts`; the `Map` becomes an association
list and `Date.now()` an explicit parameter of each operation. -/
structure RateLimiter where
  windowMs : Nat
  maxAttempts : Nat
  blockDurationMs : Nat
  attempts : List (String × RateLimitEntry)

deriving DecidableEq

/-- Outcome of one pass through the limiter middleware: `next()` or an
HTTP 429 with a Retry-After hint in seconds. -/
inductive MwResult where
  | allow
  | deny (retryAfter : Nat)

deriving DecidableEq

/-- `Map.set`: replace the value under an existing key, insert at the end
otherwise. -/
def mapSet (m : List (String × RateLimitEntry)) (k : String) (v : RateLimitEntry) :
    List (String × RateLimitEntry) :=
  if (List.lookup k m).isSome then
    m.map (fun p => if p.1 = k then (k, v) else p)
  else m ++ [(k, v)]

/-- `Map.delete`. -/
def mapDelete (m : List (String × RateLimitEntry)) (k : String) :
    List (String × RateLimitEntry) :=
  m.filter (fun p => !(p.1 == k))

/-- `Math.ceil(ms / 1000)` on naturals. -/
def ceilSeconds (ms : Nat) : Nat := (ms + 999) / 1000

/-- The window bookkeeping of `RateLimiter.middleware` that runs once the
blocked-client check has fallen through: open or reset a window, or bump
the counter and possibly start a lockout. -/
def windowStep (rl : RateLimiter) (key : String) (now : Nat)
    (entry? : Option RateLimitEntry) : MwResult × RateLimiter :=
  match entry? with
  | none =>
    (.allow,
      { rl with attempts := mapSet rl.attempts key ⟨1, now + rl.windowMs, none⟩ })
  | some entry =>
    if entry.resetAt < now then
      (.allow,
        { rl with attempts := mapSet rl.attempts key ⟨1, now + rl.windowMs, none⟩ })
    else
      let bumped : RateLimitEntry := { entry with count := entry.count + 1 }
      if rl.maxAttempts < bumped.count then
        let locked : RateLimitEntry := { bumped with blockedUntil := some (now + rl.blockDurationMs) }
        (.deny (ceilSeconds rl.blockDurationMs),
          { rl with attempts := mapSet rl.attempts key locked })
      else
        (.allow, { rl with attempts := mapSet rl.attempts key bumped })

/-- One request through `RateLimiter.middleware` for a given client key at
a given clock reading. -/
def middlewareStep (rl : RateLimiter) (key : String) (now : Nat) : MwResult × RateLimiter :=
  match List.lookup key rl.attempts with
  | none => windowStep rl key now none
  | some entry =>
    match entry.blockedUntil with
    | some b =>
      if now < b then (.deny (ceilSeconds (b - now)), rl)
      else windowStep rl key now (some entry)
    | none => windowStep rl key now (some entry)

/-- `RateLimiter.resetClient`: called on successful unlock. -/
def resetClient (rl : RateLimiter) (key : String) : RateLimiter :=
  { rl with attempts := mapDelete rl.attempts key }

/-- `RateLimiter.cleanup`: the periodic sweep evicting entries whose window
and lockout have both expired. -/
def rlCleanup (rl : RateLimiter) (now : Nat) : RateLimiter :=
  { rl with attempts := rl.attempts.filter (fun p =>
      !(p.2.resetAt < now &&
        (match p.2.blockedUntil with | none => true | some b => b < now))) }

/-- The live session (`SessionData` in `types.ts`). -/
structure SessionData where
  token : String
  key : Bytes
  kdf : KdfParams
  vault : VaultData
  lastActivity : Nat

deriving DecidableEq

/-- The durable store behind `vaultStorage.ts`: the vault file at
`VAULT_PATH` if any, plus a flag modelling a filesystem read failure. -/
structure Store where
  file : Option VaultFile
  readFails : Bool

deriving DecidableEq

/-- The whole state a `VaultService` instance owns: the optional session
and the store it persists to. -/
structure ServiceState where
  session : Option SessionData
  store : Store

deriving DecidableEq

/-- The error strings thrown by `vaultService.ts` and the storage layer:
`LOCKED`, `INVALID_SESSION`, `NOT_FOUND`, `NO_VAULT`, a filesystem error,
and a propagated decryption failure. -/
inductive ServiceError where
  | locked
  | invalidSession
  | notFound
  | noVault
  | ioError
  | decryptError (e : VaultError)

deriving DecidableEq

/-- `vaultExists` from `vaultStorage.ts`. -/
def vaultExists (s : Store) : Bool := s.file.isSome

/-- `readVaultFile` from `vaultStorage.ts`; a filesystem failure surfaces
as an error. -/
def readVaultFile (s : Store) : Except ServiceError VaultFile :=
  if s.readFails then .error .ioError
  else
    match s.file with
    | some f => .ok f
    | none => .error .ioError

/-- `writeVaultFile` from `vaultStorage.ts` (the atomic
write-temp-then-rename, which as a whole replaces the stored file). -/
def writeVaultFile (s : Store) (f : VaultFile) : Store :=
  { file := some f, readFails := s.readFails }

/-- The value returned by a successful `VaultService.unlock`. -/
structure UnlockResult where
  created : Bool
  token : String
  entries : Nat

deriving DecidableEq

/-- `VaultService.unlock`.  The fresh uuid token, the random salt and iv of
the encryption, and `Date.now()` are explicit parameters.  On any failure
the thrown exception propagates before `this.session` is assigned, so the
state is returned unchanged. -/
def unlock (st : ServiceState) (masterPassword : String) (createIfMissing : Bool)
    (freshToken : String) (salt : String) (iv : Bytes) (now : Nat) :
    Except ServiceError UnlockResult × ServiceState :=
  if vaultExists st.store then
    match readVaultFile st.store with
    | .error e => (.error e, st)
    | .ok vaultFile =>
      match decryptVault vaultFile masterPassword with
      | .error e => (.error (.decryptError e), st)
      | .ok res =>
        let session : SessionData :=
          { token := freshToken, key := res.2.1, kdf := res.2.2, vault := res.1,
            lastActivity := now }
        (.ok { created := false, token := freshToken, entries := res.1.entries.length },
          { session := some session, store := st.store })
  else
    if createIfMissing then
      let emptyVault : VaultData := ⟨[]⟩
      let ek := encryptVault emptyVault masterPassword salt iv
      let session : SessionData :=
        { token := freshToken, key := ek.2, kdf := ek.1.kdf, vault := emptyVault,
          lastActivity := now }
      (.ok { created := true, token := freshToken, entries := 0 },
        { session := some session, store := writeVaultFile st.store ek.1 })
    else (.error .noVault, st)

/-- `VaultService.lock`. -/
def lock (st : ServiceState) : ServiceState := { st with session := none }

/-- `VaultService.requireSession`: missing session, then token check, then
touch (sliding-expiry refresh of `lastActivity`). -/
def requireSession (st : ServiceState) (token : String) (now : Nat) :
    Except ServiceError (SessionData × ServiceState) :=
  match st.session with
  | none => .error .locked
  | some s =>
    if s.token = token then
      let s' : SessionData := { s with lastActivity := now }
      .ok (s', { st with session := some s' })
    else .error .invalidSession

/-- `VaultService.persist`: re-encrypt the session's vault with the
session key and write it through; the fresh iv is an explicit
parameter. -/
def persist (session : SessionData) (st : ServiceState) (iv : Bytes) : ServiceState :=
  let vaultFile := encryptVaultWithKey session.vault session.key session.kdf iv
  { st with store := writeVaultFile st.store vaultFile }

/-- The per-entry filter of `VaultService.getEntries` for a non-empty
query. -/
def matchesQuery (q : String) (e : VaultEntry) : Bool :=
  jsIncludes (jsToLower e.site) q || jsIncludes (jsToLower e.username) q ||
    jsIncludes (jsToLower e.domain) q

/-- Lexicographic comparison of character lists by code point, the model of
`String.prototype.localeCompare`-ascending used for display order. -/
def lexLe : List Char → List Char → Bool
  | [], _ => true
  | _ :: _, [] => false
  | a :: as, b :: bs =>
    if a.toNat < b.toNat then true
    else if b.toNat < a.toNat then false
    else lexLe as bs

def insertBySite (e : VaultEntry) : List VaultEntry → List VaultEntry
  | [] => [e]
  | x :: xs => if lexLe e.site.data x.site.data then e :: x :: xs else x :: insertBySite e xs

/-- Stable sort by site name (model of `entries.sort((a, b) =>
a.site.localeCompare(b.site))`). -/
def sortBySite : List VaultEntry → List VaultEntry
  | [] => []
  | e :: es => insertBySite e (sortBySite es)

/-- `VaultService.getEntries`: token gate, optional case-insensitive
substring filter, sort by site. -/
def getEntries (st : ServiceState) (token : String) (query : Option String) (now : Nat) :
    Except ServiceError (List VaultEntry) × ServiceState :=
  match requireSession st token now with
  | .error e => (.error e, st)
  | .ok (s, st') =>
    let normalizedQuery := query.map (fun q => jsToLower (jsTrim q))
    let keep : VaultEntry → Bool := fun e =>
      match normalizedQuery with
      | none => true
      | some q => if q = "" then true else matchesQuery q e
    (.ok (sortBySite (s.vault.entries.filter keep)), st')

/-- `VaultService.getEntriesForDomain`: token gate, then the
`domainMatches` filter against the normalized target. -/
def getEntriesForDomain (st : ServiceState) (token : String) (domain : String) (now : Nat) :
    Except ServiceError (List VaultEntry) × ServiceState :=
  match requireSession st token now with
  | .error e => (.error e, st)
  | .ok (s, st') =>
    let target := normalizeDomain domain
    (.ok (s.vault.entries.filter (fun e => domainMatches e.domain target)), st')

/-- The request payload of `VaultService.addEntry` (entry fields without
id and timestamps). -/
structure EntryPayload where
  site : String
  domain : String
  username : String
  password : String
  notes : Option String

deriving DecidableEq

/-- `VaultService.addEntry`: token gate, build the entry with a fresh id
and timestamps and a normalized domain, append, persist, return it. -/
def addEntry (st : ServiceState) (token : String) (payload : EntryPayload)
    (newId : String) (nowIso : String) (now : Nat) (iv : Bytes) :
    Except ServiceError VaultEntry × ServiceState :=
  match requireSession st token now with
  | .error e => (.error e, st)
  | .ok (s, st') =>
    let entry : VaultEntry :=
      { id := newId, site := payload.site, domain := normalizeDomain payload.domain,
        username := payload.username, password := payload.password, notes := payload.notes,
        createdAt := nowIso, updatedAt := nowIso }
    let s' : SessionData := { s with vault := ⟨s.vault.entries ++ [entry]⟩ }
    (.ok entry, persist s' { st' with session := some s' } iv)

/-- The loosely-shaped partial payload of `VaultService.updateEntry`: every
field optional. -/
structure EntryPatch where
  site : Option String
  domain : Option String
  username : Option String
  password : Option String
  notes : Option String

deriving DecidableEq

/-- The merge `{...existing, ...payload, domain: payload.domain ?
normalizeDomain(payload.domain) : existing.domain, updatedAt: now}` of
`VaultService.updateEntry` (an empty-string domain is falsy in the source
and keeps the existing one). -/
def applyPatch (patch : EntryPatch) (nowIso : String) (existing : VaultEntry) : VaultEntry :=
  { existing with
    site := patch.site.getD existing.site,
    username := patch.username.getD existing.username,
    password := patch.password.getD existing.password,
    notes := (match patch.notes with | some n => some n | none => existing.notes),
    domain := (match patch.domain with
      | some d => if d = "" then existing.domain else normalizeDomain d
      | none => existing.domain),
    updatedAt := nowIso }

/-- Replace the first entry with the given id, returning the updated entry
and the new list (the `findIndex` / assignment pair of the source). -/
def updateFirst (entryId : String) (f : VaultEntry → VaultEntry) :
    List VaultEntry → Option (VaultEntry × List VaultEntry)
  | [] => none
  | e :: es =>
    if e.id = entryId then
      let u := f e
      some (u, u :: es)
    else
      match updateFirst entryId f es with
      | none => none
      | some (u, es') => some (u, e :: es')

/-- `VaultService.updateEntry`. -/
def updateEntry (st : ServiceState) (token : String) (entryId : String) (patch : EntryPatch)
    (nowIso : String) (now : Nat) (iv : Bytes) :
    Except ServiceError VaultEntry × ServiceState :=
  match requireSession st token now with
  | .error e => (.error e, st)
  | .ok (s, st') =>
    match updateFirst entryId (applyPatch patch nowIso) s.vault.entries with
    | none => (.error .notFound, st')
    | some (updated, entries') =>
      let s' : SessionData := { s with vault := ⟨entries'⟩ }
      (.ok updated, persist s' { st' with session := some s' } iv)

/-- `VaultService.deleteEntry`: filter the id out; unchanged length means
`NOT_FOUND`, otherwise persist. -/
def deleteEntry (st : ServiceState) (token : String) (entryId : String) (now : Nat)
    (iv : Bytes) : Except ServiceError Unit × ServiceState :=
  match requireSession st token now with
  | .error e => (.error e, st)
  | .ok (s, st') =>
    let remaining := s.vault.entries.filter (fun e => !(e.id == entryId))
    if remaining.length = s.vault.entries.length then (.error .notFound, st')
    else
      let s' : SessionData := { s with vault := ⟨remaining⟩ }
      (.ok (), persist s' { st' with session := some s' } iv)

/-- A well-formed written file: current version and integrity tag
present. -/
abbrev GoodFile (f : VaultFile) : Prop := f.version = 2 ∧ f.hmac.isSome = true

/-- A transition writes nothing, or writes one well-formed file. -/
abbrev WritesGood (st st' : ServiceState) : Prop :=
  st'.store = st.store ∨ ∃ f, GoodFile f ∧ st'.store = writeVaultFile st.store f

/-- Results of a sequence of middleware passes for one key at the given
clock readings. -/
def attemptResults (rl : RateLimiter) (key : String) : List Nat → List MwResult
  | [] => []
  | t :: ts => (middlewareStep rl key t).1 :: attemptResults (middlewareStep rl key t).2 key ts

/-- Limiter state after a sequence of middleware passes for one key. -/
def runAttempts (rl : RateLimiter) (key : String) : List Nat → RateLimiter
  | [] => rl
  | t :: ts => runAttempts (middlewareStep rl key t).2 key ts

theorem decList_encList (l r : Bytes) : decList (encList l ++ r) = some (l, r) := by
  have h : l.length ≤ (l ++ r).length := by simp
  simp [encList, decList, h, List.take_left, List.drop_left]

theorem encList_inj {a b : Bytes} (h : encList a = encList b) : a = b :=
  (by simpa [encList] using h : a.length = b.length ∧ a = b).2

theorem map_ofNat_toNat (l : List Char) : (l.map Char.toNat).map Char.ofNat = l := by
  induction l with
  | nil => rfl
  | cons c cs ih => simp [Char.ofNat_toNat, ih]

theorem string_length_eq_data (s : String) : s.length = s.data.length := rfl

theorem decStr_encStr (s : String) (r : Bytes) : decStr (encStr s ++ r) = some (s, r) := by
  show decStr (s.length :: (s.data.map Char.toNat ++ r)) = some (s, r)
  have hlen : s.length = (s.data.map Char.toNat).length := by
    rw [List.length_map]; rfl
  have hle : s.length ≤ (s.data.map Char.toNat ++ r).length := by
    simp only [List.length_append, List.length_map]
    exact Nat.le_add_right s.data.length r.length
  simp only [decStr, hle, if_pos]
  rw [hlen, List.take_left, List.drop_left, map_ofNat_toNat]

theorem char_toNat_inj {c d : Char} (h : c.toNat = d.toNat) : c = d := by
  have := congrArg Char.ofNat h
  rwa [Char.ofNat_toNat, Char.ofNat_toNat] at this

theorem encStr_inj {a b : String} (h : encStr a = encStr b) : a = b := by
  have h2 := congrArg (fun x => decStr (x ++ [])) h
  simp only [decStr_encStr] at h2
  exact congrArg Prod.fst (Option.some.inj h2)

/-- Splitting an equality of encoded-string-prefixed messages. -/
theorem encStr_append_inj {a b : String} {r r' : Bytes}
    (h : encStr a ++ r = encStr b ++ r') : a = b ∧ r = r' := by
  have h2 := congrArg decStr h
  rw [decStr_encStr, decStr_encStr] at h2
  have h3 := Option.some.inj h2
  exact ⟨congrArg Prod.fst h3, congrArg Prod.snd h3⟩

/-- Splitting an equality of encoded-list-prefixed messages. -/
theorem encList_append_inj {a b : Bytes} {r r' : Bytes}
    (h : encList a ++ r = encList b ++ r') : a = b ∧ r = r' := by
  have h2 := congrArg decList h
  rw [decList_encList, decList_encList] at h2
  have h3 := Option.some.inj h2
  exact ⟨congrArg Prod.fst h3, congrArg Prod.snd h3⟩

theorem jsStrEqScan_eq_true_iff (a b : Bytes) : jsStrEqScan a b = true ↔ a = b := by
  induction a generalizing b with
  | nil => cases b <;> simp [jsStrEqScan]
  | cons x xs ih =>
    cases b with
    | nil => simp [jsStrEqScan]
    | cons y ys =>
      by_cases hxy : x = y
      · simp [jsStrEqScan, hxy, ih]
      · simp [jsStrEqScan, hxy]

theorem jsStrEq_eq_true_iff (a b : Bytes) : jsStrEq a b = true ↔ a = b := by
  unfold jsStrEq
  by_cases h : a.length = b.length
  · simp [h, jsStrEqScan_eq_true_iff]
  · simp [h]
    intro he
    exact h (he ▸ rfl)

theorem jsStrEq_self (a : Bytes) : jsStrEq a a = true := (jsStrEq_eq_true_iff a a).mpr rfl

theorem jsStrEq_eq_false_of_ne {a b : Bytes} (h : a ≠ b) : jsStrEq a b = false := by
  cases he : jsStrEq a b with
  | false => rfl
  | true => exact absurd ((jsStrEq_eq_true_iff a b).mp he) h

theorem decOptStr_encOptStr (o : Option String) (r : Bytes) :
    decOptStr (encOptStr o ++ r) = some (o, r) := by
  cases o with
  | none => rfl
  | some s => simp [encOptStr, decOptStr, decStr_encStr]

theorem decEntry_encEntry (e : VaultEntry) (r : Bytes) :
    decEntry (encEntry e ++ r) = some (e, r) := by
  simp [decEntry, encEntry, List.append_assoc, decStr_encStr, decOptStr_encOptStr]

theorem decEntries_encEntries (l : List VaultEntry) (r : Bytes) :
    decEntries l.length (encEntries l ++ r) = some (l, r) := by
  induction l generalizing r with
  | nil => rfl
  | cons e es ih =>
    simp [encEntries, decEntries, List.append_assoc, decEntry_encEntry, ih]

theorem parseVault_serializeVault (d : VaultData) : parseVault (serializeVault d) = some d := by
  have h := decEntries_encEntries d.entries []
  rw [List.append_nil] at h
  simp [parseVault, serializeVault, h]

theorem zipWith_sub_zipWith_add (pt ks : Bytes) (h : pt.length ≤ ks.length) :
    List.zipWith (fun c k => c - k) (List.zipWith (fun b k => b + k) pt ks) ks = pt := by
  induction pt generalizing ks with
  | nil => simp
  | cons b bs ih =>
    cases ks with
    | nil => simp at h
    | cons k kk =>
      simp only [List.zipWith]
      rw [ih kk (Nat.le_of_succ_le_succ h)]
      simp

theorem keystream_length (key iv : Bytes) (n : Nat) : (keystream key iv n).length = n := by
  simp [keystream]

theorem maskBytes_length (key iv pt : Bytes) : (maskBytes key iv pt).length = pt.length := by
  simp [maskBytes, keystream_length]

theorem unmask_mask (key iv pt : Bytes) : unmaskBytes key iv (maskBytes key iv pt) = pt := by
  unfold unmaskBytes
  rw [maskBytes_length]
  exact zipWith_sub_zipWith_add pt (keystream key iv pt.length)
    (by rw [keystream_length])

theorem gcmTag_inj {key key' iv iv' ct ct' : Bytes}
    (h : gcmTag key iv ct = gcmTag key' iv' ct') : key = key' ∧ iv = iv' ∧ ct = ct' := by
  unfold gcmTag at h
  rw [List.append_assoc, List.append_assoc] at h
  obtain ⟨hk, h2⟩ := encList_append_inj h
  obtain ⟨hi, h3⟩ := encList_append_inj h2
  exact ⟨hk, hi, encList_inj h3⟩

theorem computeHMAC_inj {v v' : Nat} {kdf kdf' : KdfParams} {c c' : CipherPayload}
    {key key' : Bytes} (h : computeHMAC v kdf c key = computeHMAC v' kdf' c' key') :
    v = v' ∧ kdf = kdf' ∧ c = c' ∧ key = key' := by
  unfold computeHMAC at h
  obtain ⟨hkey, h2⟩ := encList_append_inj h
  obtain ⟨hv, h3⟩ := List.cons.inj h2
  obtain ⟨hsalt, h4⟩ := encStr_append_inj h3
  obtain ⟨hN, h5⟩ := List.cons.inj h4
  obtain ⟨hr, h6⟩ := List.cons.inj h5
  obtain ⟨hp, h7⟩ := List.cons.inj h6
  obtain ⟨hkl, h8⟩ := List.cons.inj h7
  rw [List.append_assoc, List.append_assoc] at h8
  obtain ⟨hiv, h9⟩ := encList_append_inj h8
  obtain ⟨hdata, h10⟩ := encList_append_inj h9
  have htag := encList_inj h10
  refine ⟨hv, ?_, ?_, hkey⟩
  · cases kdf; cases kdf'
    simp_all
  · cases c; cases c'
    simp_all

theorem deriveKey_inj {pw pw' : String} {params params' : KdfParams}
    (h : deriveKey pw params = deriveKey pw' params') : pw = pw' ∧ params.salt = params'.salt := by
  unfold deriveKey at h
  obtain ⟨hpw, h2⟩ := encStr_append_inj h
  exact ⟨hpw, encStr_inj h2⟩

theorem decryptPayload_encryptPayload (data key iv : Bytes) :
    decryptPayload (encryptPayload data key iv) key = .ok data := by
  simp [decryptPayload, encryptPayload, unmask_mask]

/-- Round trip of the whole codec at a fixed key. -/
theorem decryptVaultWithKey_encryptVaultWithKey (d : VaultData) (key : Bytes)
    (kdf : KdfParams) (iv : Bytes) :
    decryptVaultWithKey (encryptVaultWithKey d key kdf iv) key = .ok d := by
  have hpay := decryptPayload_encryptPayload (serializeVault d) key iv
  simp [decryptVaultWithKey, checkIntegrity, encryptVaultWithKey, jsStrEq_self,
    hpay, parseVault_serializeVault]

/-- Decryption of a freshly encrypted version-2 file under any key other
than the sealing key fails at the keyed HMAC comparison, which runs before
the cipher is opened. -/
theorem decrypt_wrong_key_tampered (d : VaultData) (key key' : Bytes) (kdf : KdfParams)
    (iv : Bytes) (h : key ≠ key') :
    decryptVaultWithKey (encryptVaultWithKey d key kdf iv) key' = .error .integrityTampered := by
  have hne : computeHMAC 2 kdf (encryptPayload (serializeVault d) key iv) key ≠
      computeHMAC 2 kdf (encryptPayload (serializeVault d) key iv) key' := by
    intro he
    exact h (computeHMAC_inj he).2.2.2
  simp [decryptVaultWithKey, checkIntegrity, encryptVaultWithKey,
    jsStrEq_eq_false_of_ne hne]

/-- On a version-1 copy of a sealed file (no HMAC layer), a wrong key
reaches the cipher and fails there with the GCM authentication error. -/
theorem decrypt_v1_wrong_key_auth (d : VaultData) (key key' : Bytes) (kdf : KdfParams)
    (iv : Bytes) (h : key ≠ key') :
    decryptVaultWithKey
      { encryptVaultWithKey d key kdf iv with version := 1, hmac := none } key' =
      .error .authFailure := by
  have hne : gcmTag key iv (maskBytes key iv (serializeVault d)) ≠
      gcmTag key' iv (maskBytes key iv (serializeVault d)) := by
    intro he
    exact h (gcmTag_inj he).1
  simp [decryptVaultWithKey, checkIntegrity, encryptVaultWithKey, encryptPayload,
    decryptPayload, hne]

/-- Distinct passwords derive distinct ideal keys over the same
parameters. -/
theorem deriveKey_ne_of_pw_ne {pw pw' : String} (kdf : KdfParams) (h : pw ≠ pw') :
    deriveKey pw kdf ≠ deriveKey pw' kdf := by
  intro he
  exact h (deriveKey_inj he).1

theorem encryptVaultWithKey_kdf (d : VaultData) (key : Bytes) (kdf : KdfParams) (iv : Bytes) :
    (encryptVaultWithKey d key kdf iv).kdf = kdf := rfl

theorem encryptVault_fst (d : VaultData) (pw salt : String) (iv : Bytes) :
    (encryptVault d pw salt iv).1 =
      encryptVaultWithKey d (deriveKey pw (generateKdfParams salt))
        (generateKdfParams salt) iv := rfl

theorem encryptVault_snd (d : VaultData) (pw salt : String) (iv : Bytes) :
    (encryptVault d pw salt iv).2 = deriveKey pw (generateKdfParams salt) := rfl

/-- C3: for every vault data and every password (and any fresh salt and
iv), decrypting the file produced by `encryptVault` — the spec's
`encryptNew` — with the same password returns exactly the original data,
together with the derived key and the generated KDF parameters. -/
theorem c3_round_trip (d : VaultData) (pw salt : String) (iv : Bytes) :
    decryptVault (encryptVault d pw salt iv).1 pw =
      .ok (d, (encryptVault d pw salt iv).2, generateKdfParams salt) := by
  have hr := decryptVaultWithKey_encryptVaultWithKey d
    (deriveKey pw (generateKdfParams salt)) (generateKdfParams salt) iv
  simp [decryptVault, encryptVault_fst, encryptVault_snd, encryptVaultWithKey_kdf, hr]

/-- C9: a version-1 vault file with no integrity tag decrypts successfully
with the correct password and returns the vault data: the integrity check
is skipped entirely for version 1. -/
theorem c9_v1_back_compat (d : VaultData) (pw : String) (kdf : KdfParams) (iv : Bytes) :
    decryptVault
      { encryptVaultWithKey d (deriveKey pw kdf) kdf iv with version := 1, hmac := none } pw =
      .ok (d, deriveKey pw kdf, kdf) := by
  have hpay := decryptPayload_encryptPayload (serializeVault d) (deriveKey pw kdf) iv
  simp [decryptVault, decryptVaultWithKey, checkIntegrity, encryptVaultWithKey,
    hpay, parseVault_serializeVault]

/-- C1, counterexample: decrypting a freshly encrypted vault with a wrong
password does not fail with the cipher's AuthenticationError
(`authFailure`); it fails with the IntegrityError of the keyed HMAC
comparison, because the HMAC is keyed by the password-derived key and is
checked before the cipher is opened. -/
theorem c1_counterexample :
    decryptVault (encryptVault ⟨[]⟩ "masterpw" "s" [7]).1 "wrongpw1" =
      .error .integrityTampered ∧
    VaultError.integrityTampered ≠ VaultError.authFailure := by
  exact ⟨by decide, by decide⟩

/-- C1, amended: decrypting a freshly encrypted (version-2) vault file with
a wrong password always fails, but with the IntegrityError of the keyed
HMAC check rather than AuthenticationError; the AuthenticationError only
appears on version-1 files, which have no HMAC layer; and the
SessionManager propagates the failure unchanged and leaves its state
untouched. -/
theorem c1_amended (d : VaultData) (pw pw' salt : String) (iv : Bytes) (h : pw ≠ pw') :
    decryptVault (encryptVault d pw salt iv).1 pw' = .error .integrityTampered ∧
    decryptVaultWithKey
      { encryptVaultWithKey d (deriveKey pw (generateKdfParams salt))
          (generateKdfParams salt) iv with version := 1, hmac := none }
      (deriveKey pw' (generateKdfParams salt)) = .error .authFailure ∧
    (∀ st : ServiceState, ∀ tok salt' iv' now,
      st.store.file = some (encryptVault d pw salt iv).1 → st.store.readFails = false →
      unlock st pw' false tok salt' iv' now =
        (.error (.decryptError .integrityTampered), st)) := by
  have hkey := deriveKey_ne_of_pw_ne (generateKdfParams salt) h
  have h1 : decryptVault (encryptVault d pw salt iv).1 pw' = .error .integrityTampered := by
    have hw := decrypt_wrong_key_tampered d _ _ (generateKdfParams salt) iv hkey
    simp [decryptVault, encryptVault_fst, encryptVaultWithKey_kdf, hw]
  refine ⟨h1, decrypt_v1_wrong_key_auth d _ _ (generateKdfParams salt) iv hkey, ?_⟩
  intro st tok salt' iv' now hfile hrf
  simp [unlock, vaultExists, readVaultFile, hfile, hrf, h1]

/-- C1, witness for the amended theorem at a concrete input. -/
theorem c1_witness :
    decryptVault (encryptVault ⟨[]⟩ "masterpw" "s0" [3]).1 "wrongpw1" =
      .error .integrityTampered := by
  exact (c1_amended ⟨[]⟩ "masterpw" "wrongpw1" "s0" [3] (by decide)).1

/-- C2: for version ≥ 2 vault files, (a) a missing integrity tag fails with
the missing-tag IntegrityError before anything else runs; (b) altering the
ciphertext of a correctly tagged file (in particular any single byte of
`cipher.data`) fails the verification with the tampered IntegrityError;
(c) the instrumented decryption computes the same result as the plain one;
(d) when the integrity check fails, the run produces no cipher-open and no
deserialization event at all; (e) whenever the cipher is opened or the
plaintext deserialized on a version ≥ 2 file, the successful verification
event is the first event of the trace. -/
theorem c2_integrity_mandatory_and_first (vault : VaultFile) (key : Bytes) :
    (2 ≤ vault.version → vault.hmac = none →
      decryptVaultWithKey vault key = .error .integrityMissing) ∧
    (∀ data' : Bytes,
      vault.hmac = some (computeHMAC vault.version vault.kdf vault.cipher key) →
      2 ≤ vault.version → data' ≠ vault.cipher.data →
      decryptVaultWithKey
        { vault with cipher := { vault.cipher with data := data' } } key =
        .error .integrityTampered) ∧
    ((decryptTraceWithKey vault key).1 = decryptVaultWithKey vault key) ∧
    (∀ e, checkIntegrity vault key = .error e →
      decryptTraceWithKey vault key = (.error e, [])) ∧
    (2 ≤ vault.version →
      (DecryptEvent.openedCipher ∈ (decryptTraceWithKey vault key).2 →
        (decryptTraceWithKey vault key).2.head? = some DecryptEvent.verified) ∧
      (DecryptEvent.deserialized ∈ (decryptTraceWithKey vault key).2 →
        DecryptEvent.openedCipher ∈ (decryptTraceWithKey vault key).2 ∧
        (decryptTraceWithKey vault key).2.head? = some DecryptEvent.verified)) := by
  refine ⟨?_, ?_, ?_, ?_, ?_⟩
  · intro hv hm
    simp [decryptVaultWithKey, checkIntegrity, hv, hm]
  · intro data' hm hv hd
    have hne : computeHMAC vault.version vault.kdf vault.cipher key ≠
        computeHMAC vault.version vault.kdf { vault.cipher with data := data' } key := by
      intro he
      have hc := (computeHMAC_inj he).2.2.1
      exact hd (congrArg CipherPayload.data hc.symm)
    simp [decryptVaultWithKey, checkIntegrity, hv, hm, jsStrEq_eq_false_of_ne hne]
  · unfold decryptTraceWithKey decryptVaultWithKey
    cases hchk : checkIntegrity vault key with
    | error e => rfl
    | ok u =>
      cases hpay : decryptPayload vault.cipher key with
      | error e => rfl
      | ok pt =>
        cases hparse : parseVault pt with
        | none => simp [hparse]
        | some d => simp [hparse]
  · intro e he
    simp [decryptTraceWithKey, he]
  · intro hv
    unfold decryptTraceWithKey
    cases hchk : checkIntegrity vault key with
    | error e => simp
    | ok u =>
      cases hpay : decryptPayload vault.cipher key with
      | error e => simp [hv]
      | ok pt =>
        cases hparse : parseVault pt with
        | none => simp [hv, hparse]
        | some d => simp [hv, hparse]

/-- C2, witness for the hypothesis-bearing conjuncts at concrete inputs:
a concrete version-2 file without a tag, and a concrete sealed file with
one ciphertext byte altered. -/
theorem c2_witness :
    decryptVaultWithKey ⟨2, ⟨"s", 65536, 8, 1, 32⟩, ⟨[1], [2], [3]⟩, none⟩ [9] =
      .error .integrityMissing ∧
    decryptVaultWithKey
      { encryptVaultWithKey ⟨[]⟩ [5] ⟨"s", 65536, 8, 1, 32⟩ [7] with
        cipher := { (encryptVaultWithKey ⟨[]⟩ [5] ⟨"s", 65536, 8, 1, 32⟩ [7]).cipher with
          data := 99 :: (encryptVaultWithKey ⟨[]⟩ [5] ⟨"s", 65536, 8, 1, 32⟩ [7]).cipher.data } }
      [5] = .error .integrityTampered := by
  constructor
  · exact (c2_integrity_mandatory_and_first
      ⟨2, ⟨"s", 65536, 8, 1, 32⟩, ⟨[1], [2], [3]⟩, none⟩ [9]).1 (by decide) rfl
  · exact (c2_integrity_mandatory_and_first
      (encryptVaultWithKey ⟨[]⟩ [5] ⟨"s", 65536, 8, 1, 32⟩ [7]) [5]).2.1
      (99 :: (encryptVaultWithKey ⟨[]⟩ [5] ⟨"s", 65536, 8, 1, 32⟩ [7]).cipher.data)
      rfl (by decide) (by decide)

/-- C4: the integrity comparison of `decryptVaultWithKey` is the JavaScript
`!==` on the two digest strings, which exits at the first mismatching
character: two version-2 files whose stored tags have the same length but
differ from the recomputed MAC at different positions make the comparison
perform different numbers of character comparisons (1 versus 10), so the
comparison is not constant-time; both files are still rejected with the
tampered IntegrityError. -/
theorem c4_not_constant_time :
    ([1, 2, 0, 0, 0, 0, 0, 0, 0, 0] : Bytes).length =
      ([0, 2, 0, 0, 0, 0, 0, 0, 0, 1] : Bytes).length ∧
    integrityCmpCost ⟨2, ⟨"", 0, 0, 0, 0⟩, ⟨[], [], []⟩,
      some [1, 2, 0, 0, 0, 0, 0, 0, 0, 0]⟩ [] = 1 ∧
    integrityCmpCost ⟨2, ⟨"", 0, 0, 0, 0⟩, ⟨[], [], []⟩,
      some [0, 2, 0, 0, 0, 0, 0, 0, 0, 1]⟩ [] = 10 ∧
    integrityCmpCost ⟨2, ⟨"", 0, 0, 0, 0⟩, ⟨[], [], []⟩,
        some [1, 2, 0, 0, 0, 0, 0, 0, 0, 0]⟩ [] ≠
      integrityCmpCost ⟨2, ⟨"", 0, 0, 0, 0⟩, ⟨[], [], []⟩,
        some [0, 2, 0, 0, 0, 0, 0, 0, 0, 1]⟩ [] ∧
    decryptVaultWithKey ⟨2, ⟨"", 0, 0, 0, 0⟩, ⟨[], [], []⟩,
      some [1, 2, 0, 0, 0, 0, 0, 0, 0, 0]⟩ [] = .error .integrityTampered ∧
    decryptVaultWithKey ⟨2, ⟨"", 0, 0, 0, 0⟩, ⟨[], [], []⟩,
      some [0, 2, 0, 0, 0, 0, 0, 0, 0, 1]⟩ [] = .error .integrityTampered := by
  decide

theorem string_eq_iff_data_eq {a b : String} : a = b ↔ a.data = b.data := by
  constructor
  · intro h; rw [h]
  · intro h; cases a; cases b; exact congrArg String.mk h

theorem string_append_assoc (a b c : String) : a ++ b ++ c = a ++ (b ++ c) := by
  apply string_eq_iff_data_eq.mpr
  simp [String.data_append]

theorem string_length_append (a b : String) : (a ++ b).length = a.length + b.length := by
  rw [string_length_eq_data, String.data_append, List.length_append]
  rfl

/-- Characterization of the JavaScript `endsWith` used by
`domainMatches`. -/
theorem jsEndsWith_iff (s pat : String) :
    jsEndsWith s pat = true ↔ ∃ q : String, s = q ++ pat := by
  unfold jsEndsWith
  constructor
  · intro h
    obtain ⟨t, ht⟩ := List.isSuffixOf_iff_suffix.mp h
    refine ⟨String.mk t, string_eq_iff_data_eq.mpr ?_⟩
    rw [String.data_append]
    exact ht.symm
  · rintro ⟨q, rfl⟩
    apply List.isSuffixOf_iff_suffix.mpr
    exact ⟨q.data, (String.data_append q pat).symm⟩

/-- C5: an entry matches a target exactly when the normalized target equals
the entry's normalized domain or is a dot-boundary subdomain of it
(`t = s ++ "." ++ e` for some prefix `s`); and in the other direction a
broader/parent target — one the stored entry is itself a dot-boundary
subdomain of — never matches the narrower stored entry. -/
theorem c5_domain_matching (entryDomain targetDomain : String) :
    (domainMatches entryDomain targetDomain = true ↔
      (normalizeDomain targetDomain = normalizeDomain entryDomain ∨
        ∃ s : String,
          normalizeDomain targetDomain = s ++ "." ++ normalizeDomain entryDomain)) ∧
    (∀ s : String,
      normalizeDomain entryDomain = s ++ "." ++ normalizeDomain targetDomain →
      domainMatches entryDomain targetDomain = false) := by
  have hm : domainMatches entryDomain targetDomain =
      ((normalizeDomain targetDomain == normalizeDomain entryDomain) ||
        jsEndsWith (normalizeDomain targetDomain) ("." ++ normalizeDomain entryDomain)) := rfl
  have hdot : (("." : String)).length = 1 := rfl
  constructor
  · rw [hm, Bool.or_eq_true, beq_iff_eq, jsEndsWith_iff]
    simp only [string_append_assoc]
  · intro s hs
    have hslen := congrArg String.length hs
    rw [string_length_append, string_length_append, hdot] at hslen
    have h1 : (normalizeDomain targetDomain == normalizeDomain entryDomain) = false := by
      cases hbe : (normalizeDomain targetDomain == normalizeDomain entryDomain) with
      | false => rfl
      | true =>
        have heq := eq_of_beq hbe
        have := congrArg String.length heq
        omega
    have h2 : jsEndsWith (normalizeDomain targetDomain)
        ("." ++ normalizeDomain entryDomain) = false := by
      cases hb : jsEndsWith (normalizeDomain targetDomain)
          ("." ++ normalizeDomain entryDomain) with
      | false => rfl
      | true =>
        obtain ⟨q, hq⟩ := (jsEndsWith_iff _ _).mp hb
        have hqlen := congrArg String.length hq
        rw [string_length_append, string_length_append, hdot] at hqlen
        omega
    rw [hm, h1, h2]
    rfl

/-- C5, witness: the subdomain direction matches and the parent direction
does not, at the spec's own example pair. -/
theorem c5_witness :
    domainMatches "example.com" "sub.example.com" = true ∧
    domainMatches "sub.example.com" "example.com" = false := by
  constructor
  · exact (c5_domain_matching "example.com" "sub.example.com").1.mpr
      (Or.inr ⟨"sub", by decide⟩)
  · exact (c5_domain_matching "sub.example.com" "example.com").2 "sub" (by decide)

/-- C6: every authenticated operation fails with `LOCKED` when no session
exists and with `INVALID_SESSION` when the presented token differs from the
session token, and in both failure cases the whole service state — session
and store alike — is returned unchanged. -/
theorem c6_token_gate (st : ServiceState) (tok : String) (now : Nat) :
    (st.session = none →
      (∀ q, getEntries st tok q now = (.error .locked, st)) ∧
      (∀ dom, getEntriesForDomain st tok dom now = (.error .locked, st)) ∧
      (∀ p nid niso iv, addEntry st tok p nid niso now iv = (.error .locked, st)) ∧
      (∀ eid patch niso iv,
        updateEntry st tok eid patch niso now iv = (.error .locked, st)) ∧
      (∀ eid iv, deleteEntry st tok eid now iv = (.error .locked, st))) ∧
    (∀ s, st.session = some s → s.token ≠ tok →
      (∀ q, getEntries st tok q now = (.error .invalidSession, st)) ∧
      (∀ dom, getEntriesForDomain st tok dom now = (.error .invalidSession, st)) ∧
      (∀ p nid niso iv, addEntry st tok p nid niso now iv = (.error .invalidSession, st)) ∧
      (∀ eid patch niso iv,
        updateEntry st tok eid patch niso now iv = (.error .invalidSession, st)) ∧
      (∀ eid iv, deleteEntry st tok eid now iv = (.error .invalidSession, st))) := by
  constructor
  · intro h
    have hr : requireSession st tok now = .error .locked := by
      simp [requireSession, h]
    exact ⟨fun q => by simp [getEntries, hr],
      fun dom => by simp [getEntriesForDomain, hr],
      fun p nid niso iv => by simp [addEntry, hr],
      fun eid patch niso iv => by simp [updateEntry, hr],
      fun eid iv => by simp [deleteEntry, hr]⟩
  · intro s hs hneq
    have hr : requireSession st tok now = .error .invalidSession := by
      simp [requireSession, hs, hneq]
    exact ⟨fun q => by simp [getEntries, hr],
      fun dom => by simp [getEntriesForDomain, hr],
      fun p nid niso iv => by simp [addEntry, hr],
      fun eid patch niso iv => by simp [updateEntry, hr],
      fun eid iv => by simp [deleteEntry, hr]⟩

/-- C6, witness: a locked service and a wrong token at concrete states. -/
theorem c6_witness :
    getEntries ⟨none, ⟨none, false⟩⟩ "t" none 0 = (.error .locked, ⟨none, ⟨none, false⟩⟩) ∧
    deleteEntry ⟨some ⟨"a", [], ⟨"s", 0, 0, 0, 0⟩, ⟨[]⟩, 0⟩, ⟨none, false⟩⟩ "b" "x" 0 [] =
      (.error .invalidSession,
        ⟨some ⟨"a", [], ⟨"s", 0, 0, 0, 0⟩, ⟨[]⟩, 0⟩, ⟨none, false⟩⟩) := by
  constructor
  · exact ((c6_token_gate ⟨none, ⟨none, false⟩⟩ "t" 0).1 rfl).1 none
  · exact ((c6_token_gate _ "b" 0).2 _ rfl (by decide)).2.2.2.2 "x" []

/-- C10: whenever `unlock` fails — no vault with `createIfMissing` false,
a store read failure, or a decryption failure — the service state it
returns is exactly the state it was given: a locked manager stays locked
and an existing session, token, key and in-memory vault included, is left
intact. -/
theorem c10_unlock_failure_preserves_state (st : ServiceState) (pw : String) (c : Bool)
    (tok salt : String) (iv : Bytes) (now : Nat) (e : ServiceError)
    (h : (unlock st pw c tok salt iv now).1 = .error e) :
    (unlock st pw c tok salt iv now).2 = st := by
  unfold unlock at h ⊢
  by_cases hex : vaultExists st.store = true
  · rw [if_pos hex] at h ⊢
    cases hread : readVaultFile st.store with
    | error e2 => rfl
    | ok f =>
      rw [hread] at h
      cases hdec : decryptVault f pw with
      | error e3 => simp [hdec]
      | ok r => simp [hdec] at h
  · rw [if_neg hex] at h ⊢
    by_cases hc : c = true
    · rw [if_pos hc] at h
      simp at h
    · rw [if_neg hc]

/-- C10, witness: unlocking against an empty store without creation. -/
theorem c10_witness :
    (unlock ⟨none, ⟨none, false⟩⟩ "pw" false "t" "s" [] 0).2 = ⟨none, ⟨none, false⟩⟩ :=
  c10_unlock_failure_preserves_state ⟨none, ⟨none, false⟩⟩ "pw" false "t" "s" [] 0
    .noVault (by decide)

theorem requireSession_ok_store (st : ServiceState) (tok : String) (now : Nat)
    (s2 : SessionData) (st2 : ServiceState)
    (h : requireSession st tok now = .ok (s2, st2)) : st2.store = st.store := by
  unfold requireSession at h
  split at h
  · exact absurd h (by simp)
  · split at h
    · have hp := Except.ok.inj h
      have h2 := congrArg Prod.snd hp
      exact (congrArg ServiceState.store h2).symm
    · exact absurd h (by simp)

/-- C8: a written vault file is well-formed: `encryptVaultWithKey` always
stamps version 2 and attaches an integrity tag, and every state transition
of the service either leaves the store untouched or writes such a file —
`unlock` (both the create path and the read path), `addEntry`,
`updateEntry` and `deleteEntry`; version-1 files are never produced. -/
theorem persist_WritesGood (sess : SessionData) (st stY : ServiceState) (iv : Bytes)
    (h : stY.store = st.store) : WritesGood st (persist sess stY iv) := by
  refine Or.inr ⟨encryptVaultWithKey sess.vault sess.key sess.kdf iv, ⟨rfl, rfl⟩, ?_⟩
  simp [persist, h]

theorem c8_only_v2_written :
    (∀ (d : VaultData) (key : Bytes) (kdf : KdfParams) (iv : Bytes),
      (encryptVaultWithKey d key kdf iv).version = 2 ∧
      ((encryptVaultWithKey d key kdf iv).hmac).isSome = true) ∧
    (∀ st pw c tok salt iv now, WritesGood st (unlock st pw c tok salt iv now).2) ∧
    (∀ st tok p nid niso now iv, WritesGood st (addEntry st tok p nid niso now iv).2) ∧
    (∀ st tok eid patch niso now iv,
      WritesGood st (updateEntry st tok eid patch niso now iv).2) ∧
    (∀ st tok eid now iv, WritesGood st (deleteEntry st tok eid now iv).2) := by
  refine ⟨fun d key kdf iv => ⟨rfl, rfl⟩, ?_, ?_, ?_, ?_⟩
  · intro st pw c tok salt iv now
    unfold unlock
    by_cases hex : vaultExists st.store = true
    · rw [if_pos hex]
      cases hread : readVaultFile st.store with
      | error e2 => exact Or.inl rfl
      | ok f =>
        cases hdec : decryptVault f pw with
        | error e3 =>
          refine Or.inl ?_
          simp [hdec]
        | ok r =>
          refine Or.inl ?_
          simp [hdec]
    · rw [if_neg hex]
      by_cases hc : c = true
      · rw [if_pos hc]
        exact Or.inr ⟨(encryptVault ⟨[]⟩ pw salt iv).1, ⟨rfl, rfl⟩, rfl⟩
      · rw [if_neg hc]
        exact Or.inl rfl
  · intro st tok p nid niso now iv
    unfold addEntry
    cases hreq : requireSession st tok now with
    | error e => exact Or.inl rfl
    | ok pr =>
      obtain ⟨s2, st2⟩ := pr
      have hst2 := requireSession_ok_store st tok now s2 st2 hreq
      exact persist_WritesGood _ st _ iv hst2
  · intro st tok eid patch niso now iv
    unfold updateEntry
    cases hreq : requireSession st tok now with
    | error e => exact Or.inl rfl
    | ok pr =>
      obtain ⟨s2, st2⟩ := pr
      have hst2 := requireSession_ok_store st tok now s2 st2 hreq
      cases hupd : updateFirst eid (applyPatch patch niso) s2.vault.entries with
      | none =>
        refine Or.inl ?_
        simp [hupd, hst2]
      | some pr2 =>
        obtain ⟨u, es2⟩ := pr2
        simp only [hupd]
        exact persist_WritesGood _ st _ iv hst2
  · intro st tok eid now iv
    unfold deleteEntry
    cases hreq : requireSession st tok now with
    | error e => exact Or.inl rfl
    | ok pr =>
      obtain ⟨s2, st2⟩ := pr
      have hst2 := requireSession_ok_store st tok now s2 st2 hreq
      by_cases hlen : (s2.vault.entries.filter (fun e => !(e.id == eid))).length =
          s2.vault.entries.length
      · refine Or.inl ?_
        simp [hlen, hst2]
      · simp only [hlen, if_neg, if_false]
        exact persist_WritesGood _ st _ iv hst2

theorem beq_false_of_ne {a b : String} (h : a ≠ b) : (a == b) = false := by
  cases hbe : a == b with
  | false => rfl
  | true => exact absurd (eq_of_beq hbe) h

theorem lookup_mapSet_self (m : List (String × RateLimitEntry)) (k : String)
    (v : RateLimitEntry) : List.lookup k (mapSet m k v) = some v := by
  unfold mapSet
  by_cases h : (List.lookup k m).isSome = true
  · rw [if_pos h]
    induction m with
    | nil => simp at h
    | cons p ps ih =>
      obtain ⟨k1, v1⟩ := p
      rw [List.map_cons]
      by_cases hk : k1 = k
      · rw [if_pos hk]
        simp [List.lookup]
      · rw [if_neg hk]
        have hb : (k == k1) = false := beq_false_of_ne (fun he => hk he.symm)
        have hh : (List.lookup k ps).isSome = true := by
          simpa [List.lookup, hb] using h
        simp [List.lookup, hb, ih hh]
  · rw [if_neg h]
    induction m with
    | nil => simp [List.lookup]
    | cons p ps ih =>
      obtain ⟨k1, v1⟩ := p
      by_cases hk : k1 = k
      · exfalso
        apply h
        simp [List.lookup, hk]
      · have hb : (k == k1) = false := beq_false_of_ne (fun he => hk he.symm)
        have hh : ¬(List.lookup k ps).isSome = true := by
          intro hx
          apply h
          simpa [List.lookup, hb] using hx
        rw [List.cons_append]
        simp [List.lookup, hb, ih hh]

theorem lookup_mapDelete_self (m : List (String × RateLimitEntry)) (k : String) :
    List.lookup k (mapDelete m k) = none := by
  unfold mapDelete
  induction m with
  | nil => rfl
  | cons p ps ih =>
    obtain ⟨k1, v1⟩ := p
    by_cases hk : k1 = k
    · subst hk
      simpa [List.filter] using ih
    · have hb1 : (k1 == k) = false := beq_false_of_ne hk
      have hb2 : (k == k1) = false := beq_false_of_ne (fun he => hk he.symm)
      simpa [List.filter, hb1, List.lookup, hb2] using ih

theorem mw_fresh (rl : RateLimiter) (key : String) (now : Nat)
    (hl : List.lookup key rl.attempts = none) :
    middlewareStep rl key now =
      (.allow, { rl with attempts := mapSet rl.attempts key ⟨1, now + rl.windowMs, none⟩ }) := by
  simp [middlewareStep, hl, windowStep]

theorem mw_allow_in_window (rl : RateLimiter) (key : String) (now c R : Nat)
    (hl : List.lookup key rl.attempts = some ⟨c, R, none⟩)
    (hw : now ≤ R) (hc : c + 1 ≤ rl.maxAttempts) :
    middlewareStep rl key now =
      (.allow, { rl with attempts := mapSet rl.attempts key (RateLimitEntry.mk (c + 1) R none) }) := by
  have h1 : ¬(R < now) := Nat.not_lt.mpr hw
  have h2 : ¬(rl.maxAttempts < c + 1) := Nat.not_lt.mpr hc
  simp [middlewareStep, hl, windowStep, h1, h2]

theorem mw_deny_over (rl : RateLimiter) (key : String) (now c R : Nat)
    (hl : List.lookup key rl.attempts = some ⟨c, R, none⟩)
    (hw : now ≤ R) (hc : rl.maxAttempts < c + 1) :
    middlewareStep rl key now =
      (.deny (ceilSeconds rl.blockDurationMs),
        RateLimiter.mk rl.windowMs rl.maxAttempts rl.blockDurationMs
          (mapSet rl.attempts key
            (RateLimitEntry.mk (c + 1) R (some (now + rl.blockDurationMs))))) := by
  have h1 : ¬(R < now) := Nat.not_lt.mpr hw
  simp [middlewareStep, hl, windowStep, h1, hc]

theorem mw_deny_blocked (rl : RateLimiter) (key : String) (now : Nat) (e : RateLimitEntry)
    (b : Nat) (hl : List.lookup key rl.attempts = some e) (hb : e.blockedUntil = some b)
    (hnow : now < b) :
    middlewareStep rl key now = (.deny (ceilSeconds (b - now)), rl) := by
  simp [middlewareStep, hl, hb, hnow]

theorem run_in_window (rl : RateLimiter) (key : String) (ts : List Nat) (c R : Nat)
    (hl : List.lookup key rl.attempts = some ⟨c, R, none⟩)
    (hts : ∀ t ∈ ts, t ≤ R) (hc : c + ts.length ≤ rl.maxAttempts) :
    attemptResults rl key ts = List.replicate ts.length MwResult.allow ∧
    List.lookup key (runAttempts rl key ts).attempts = some ⟨c + ts.length, R, none⟩ := by
  induction ts generalizing rl c with
  | nil => exact ⟨rfl, by simpa using hl⟩
  | cons t ts ih =>
    have hw : t ≤ R := hts t (List.mem_cons_self t ts)
    have hc1 : c + 1 ≤ rl.maxAttempts := by
      have := hc
      simp only [List.length_cons] at this
      omega
    have hstep := mw_allow_in_window rl key t c R hl hw hc1
    have hl2 : List.lookup key
        ({ rl with attempts := mapSet rl.attempts key (RateLimitEntry.mk (c + 1) R none) } :
          RateLimiter).attempts = some ⟨c + 1, R, none⟩ :=
      lookup_mapSet_self rl.attempts key ⟨c + 1, R, none⟩
    have hts2 : ∀ u ∈ ts, u ≤ R := fun u hu => hts u (List.mem_cons_of_mem t hu)
    have hc2 : (c + 1) + ts.length ≤
        ({ rl with attempts := mapSet rl.attempts key (RateLimitEntry.mk (c + 1) R none)} :
          RateLimiter).maxAttempts := by
      simp only [List.length_cons] at hc
      simpa using by omega
    obtain ⟨h1, h2⟩ := ih _ (c + 1) hl2 hts2 hc2
    have harith : c + 1 + ts.length = c + (ts.length + 1) := by omega
    constructor
    · simp [attemptResults, hstep, h1, List.replicate]
    · rw [harith] at h2
      simpa [runAttempts, hstep] using h2

/-- C7: the throttle behaves as specified: (i) from a clean state, attempts
1 through M within one window all pass and leave a window whose count is
the number of attempts; (ii) an attempt that pushes the count past M while
the window is alive is denied with a Retry-After hint and sets a lockout
expiring exactly L after it; (iii) while a lockout deadline lies in the
future, every request for that key is denied with a Retry-After hint and
the state is untouched, regardless of the window; (iv) a reset deletes the
key's record — count and lockout — immediately, even mid-window; (v) the
next attempt after a reset is allowed and opens a fresh window. -/
theorem c7_throttle (rl : RateLimiter) (key : String) :
    (∀ t0 ts, List.lookup key rl.attempts = none → (∀ t ∈ ts, t ≤ t0 + rl.windowMs) →
      ts.length + 1 ≤ rl.maxAttempts →
      attemptResults rl key (t0 :: ts) = List.replicate (ts.length + 1) MwResult.allow ∧
      List.lookup key (runAttempts rl key (t0 :: ts)).attempts =
        some ⟨ts.length + 1, t0 + rl.windowMs, none⟩) ∧
    (∀ now c R, List.lookup key rl.attempts = some ⟨c, R, none⟩ → now ≤ R →
      rl.maxAttempts < c + 1 →
      middlewareStep rl key now =
        (.deny (ceilSeconds rl.blockDurationMs),
          RateLimiter.mk rl.windowMs rl.maxAttempts rl.blockDurationMs
            (mapSet rl.attempts key
              (RateLimitEntry.mk (c + 1) R (some (now + rl.blockDurationMs)))))) ∧
    (∀ now e b, List.lookup key rl.attempts = some e → e.blockedUntil = some b →
      now < b → middlewareStep rl key now = (.deny (ceilSeconds (b - now)), rl)) ∧
    (List.lookup key (resetClient rl key).attempts = none) ∧
    (∀ now, middlewareStep (resetClient rl key) key now =
      (.allow, RateLimiter.mk rl.windowMs rl.maxAttempts rl.blockDurationMs
        (mapSet (resetClient rl key).attempts key
          (RateLimitEntry.mk 1 (now + rl.windowMs) none)))) := by
  refine ⟨?_, ?_, ?_, lookup_mapDelete_self rl.attempts key, ?_⟩
  · intro t0 ts hl hts hcnt
    have hstep := mw_fresh rl key t0 hl
    have hl2 : List.lookup key
        ({ rl with attempts := mapSet rl.attempts key (RateLimitEntry.mk 1 (t0 + rl.windowMs) none) } :
          RateLimiter).attempts = some ⟨1, t0 + rl.windowMs, none⟩ :=
      lookup_mapSet_self rl.attempts key ⟨1, t0 + rl.windowMs, none⟩
    have hc2 : 1 + ts.length ≤
        ({ rl with attempts := mapSet rl.attempts key (RateLimitEntry.mk 1 (t0 + rl.windowMs) none) } :
          RateLimiter).maxAttempts := by
      simpa using by omega
    obtain ⟨h1, h2⟩ := run_in_window _ key ts 1 (t0 + rl.windowMs) hl2 hts hc2
    have harith : 1 + ts.length = ts.length + 1 := by omega
    rw [harith] at h2
    constructor
    · simp [attemptResults, hstep, h1, List.replicate]
    · simpa [runAttempts, hstep] using h2
  · intro now c R hl hw hc
    exact mw_deny_over rl key now c R hl hw hc
  · intro now e b hl hb hnow
    exact mw_deny_blocked rl key now e b hl hb hnow
  · intro now
    exact mw_fresh (resetClient rl key) key now (lookup_mapDelete_self rl.attempts key)

/-- C7, witness: with window 1000 ms, threshold 3 and lockout 2000 ms,
three attempts inside one window all pass; a blocked key is denied with
the Retry-After hint; a reset clears the record. -/
theorem c7_witness :
    attemptResults ⟨1000, 3, 2000, []⟩ "ip" [0, 10, 20] =
      [MwResult.allow, MwResult.allow, MwResult.allow] ∧
    middlewareStep ⟨1000, 3, 2000, [("ip", ⟨4, 1000, some 500⟩)]⟩ "ip" 10 =
      (.deny 1, ⟨1000, 3, 2000, [("ip", ⟨4, 1000, some 500⟩)]⟩) ∧
    List.lookup "ip" (resetClient ⟨1000, 3, 2000, [("ip", ⟨2, 1000, none⟩)]⟩ "ip").attempts =
      none := by
  refine ⟨?_, ?_, ?_⟩
  · exact ((c7_throttle ⟨1000, 3, 2000, []⟩ "ip").1 0 [10, 20] rfl (by decide) (by decide)).1
  · exact (c7_throttle ⟨1000, 3, 2000, [("ip", ⟨4, 1000, some 500⟩)]⟩ "ip").2.2.1 10
      ⟨4, 1000, some 500⟩ 500 rfl rfl (by decide)
  · exact (c7_throttle ⟨1000, 3, 2000, [("ip", ⟨2, 1000, none⟩)]⟩ "ip").2.2.2.1

end UnoPass
